import Mathlib

/-!
Shallow embedding of the game-orchestration core of the solana-wheel-game
server (game engine, holder tracker, payout pipeline, ledger gateway), with
theorems checking the natural-language specification against it.

Machine numbers are modelled as `Nat`/`Int`; the JavaScript floating-point
percentages and growth rates are modelled as exact rationals (`ℚ`) with
`Math.floor` as `Int.floor`; fallible operations return `Except`; effectful
operations (RPC calls, transaction submission) are modelled by explicit
environments mapping the attempt number to its outcome.
-/

namespace WheelGame

/-- A tracked token holder, as built by `HolderTracker.scanHolders`
(`address` = owner account, `balance` in smallest units). -/
structure Holder where
  address : String
  balance : Nat
deriving Repr, DecidableEq

namespace GameEngine

/-- `totalWeight` of `GameEngine.selectWinner`:
`eligibleHolders.reduce((sum, holder) => sum + holder.balance, 0)`. -/
def totalWeight (hs : List Holder) : Nat :=
  (hs.map Holder.balance).sum

/-- The `for` loop of `GameEngine.selectWinner`: walk the holders,
subtracting each balance from `randomValue`; return the holder at which the
running value becomes `≤ 0`, or `none` when the loop falls through. -/
def selectWinnerLoop (randomValue : Int) : List Holder → Option Holder
  | [] => none
  | holder :: rest =>
    let r := randomValue - holder.balance
    if r ≤ 0 then some holder else selectWinnerLoop r rest

/-- `GameEngine.selectWinner` (pumpfunService.js): weighted selection over
the eligible holders with `randomValue = entropy % totalWeight`, falling back
to the first holder (`eligibleHolders[0]`) when the loop selects none. -/
def selectWinner (entropy : Nat) (hs : List Holder) : Option Holder :=
  if hs.isEmpty then none
  else
    match selectWinnerLoop ((entropy % totalWeight hs : Nat) : Int) hs with
    | some w => some w
    | none => hs.head?

/-- Spec-side reading of the walk: the first holder whose cumulative balance
(prefix sum, starting from `acc`) reaches `r`. -/
def firstCovering (r : Nat) (acc : Nat) : List Holder → Option Holder
  | [] => none
  | h :: t => if r ≤ acc + h.balance then some h else firstCovering r (acc + h.balance) t

theorem selectWinnerLoop_eq_firstCovering (r acc : Nat) (hs : List Holder) :
    selectWinnerLoop ((r : Int) - (acc : Int)) hs = firstCovering r acc hs := by
  induction hs generalizing acc with
  | nil => rfl
  | cons h t ih =>
    simp only [selectWinnerLoop, firstCovering]
    have harith : (r : Int) - (acc : Int) - (h.balance : Int)
        = (r : Int) - ((acc + h.balance : Nat) : Int) := by push_cast; ring
    have hcond : ((r : Int) - (acc : Int) - (h.balance : Int) ≤ 0)
        ↔ (r ≤ acc + h.balance) := by
      constructor
      · intro hle
        have : (r : Int) ≤ ((acc + h.balance : Nat) : Int) := by
          rw [harith] at hle; omega
        exact_mod_cast this
      · intro hle
        have : (r : Int) ≤ ((acc + h.balance : Nat) : Int) := by exact_mod_cast hle
        rw [harith]; omega
    by_cases hc : r ≤ acc + h.balance
    · rw [if_pos (hcond.mpr hc), if_pos hc]
    · rw [if_neg (fun hx => hc (hcond.mp hx)), if_neg hc, harith]
      exact ih (acc + h.balance)

end GameEngine

end WheelGame

namespace WheelGame.GameEngine

/-- Claim C1. Winner selection is a deterministic function of the holder
snapshot and the entropy value: for every non-empty holder list,
`selectWinner` returns exactly the first holder at which the running value
`r = entropy % totalWeight` becomes `≤ 0` while subtracting balances along
the list (equivalently, the first holder whose cumulative balance reaches
`r`), and the first holder of the list when the walk selects none. -/
theorem selectWinner_eq_firstCovering (entropy : Nat) (hs : List Holder)
    (hne : hs ≠ []) :
    selectWinner entropy hs =
      some ((firstCovering (entropy % totalWeight hs) 0 hs).getD (hs.head hne)) := by
  have hloop := selectWinnerLoop_eq_firstCovering (entropy % totalWeight hs) 0 hs
  simp only [Nat.cast_zero, sub_zero] at hloop
  unfold selectWinner
  rw [if_neg (by simpa using hne), hloop]
  cases hfc : firstCovering (entropy % totalWeight hs) 0 hs with
  | some w => simp
  | none =>
    simp only [Option.getD_none]
    exact List.head?_eq_head hne

/-- Witness for C1: the spec scenario — two holders with balances 700 and
300, entropy ≡ 650 (mod 1000) — selects the balance-700 holder. -/
theorem selectWinner_eq_firstCovering_witness :
    selectWinner 650 [⟨"A", 700⟩, ⟨"B", 300⟩] = some ⟨"A", 700⟩ := by
  have h := selectWinner_eq_firstCovering 650 [⟨"A", 700⟩, ⟨"B", 300⟩] (by simp)
  rw [h]; rfl

/-- Pot configuration of the Game Engine: `POT_GROWTH_RATE` (a float,
modelled as ℚ), `POT_BASE_AMOUNT`, `POT_MAX_GROWTH` (lamports). -/
structure PotConfig where
  growthRate : ℚ
  baseAmount : Nat
  maxGrowth : Nat

/-- The `growthAmount` of `GameEngine.applyPotGrowth`:
`Math.min(Math.floor(currentPot * POT_GROWTH_RATE), POT_MAX_GROWTH)`. -/
def potGrowthAmount (cfg : PotConfig) (pot : Nat) : Int :=
  min ⌊(pot : ℚ) * cfg.growthRate⌋ (cfg.maxGrowth : Int)

/-- The growth-and-base-floor portion of `GameEngine.applyPotGrowth`:
`currentPot += growthAmount; if (currentPot < POT_BASE_AMOUNT) currentPot =
POT_BASE_AMOUNT`. -/
def potAfterGrowth (cfg : PotConfig) (pot : Nat) : Nat :=
  let grown : Int := (pot : Int) + potGrowthAmount cfg pot
  (if grown < (cfg.baseAmount : Int) then (cfg.baseAmount : Int) else grown).toNat

/-- `Math.floor(walletBalance * 0.7)` — the 70%-of-wallet pot figure used by
both `applyPotGrowth` and `updatePotBalance`. -/
def potFromWallet (walletBalance : Nat) : Nat :=
  (⌊(walletBalance : ℚ) * (7 / 10 : ℚ)⌋).toNat

/-- `GameEngine.applyPotGrowth`: apply growth, enforce the base floor, then
raise the pot to 70% of the fee wallet's balance when that exceeds it.
`walletBalance = none` models a missing fee wallet / unready gateway. -/
def applyPotGrowth (cfg : PotConfig) (pot : Nat) (walletBalance : Option Nat) : Nat :=
  let p := potAfterGrowth cfg pot
  match walletBalance with
  | none => p
  | some wb => if p < potFromWallet wb then potFromWallet wb else p

/-- `GameEngine.updatePotBalance`: when the fee wallet is configured and the
gateway is ready, set the pot to `Math.floor(walletBalance * 0.7)`
unconditionally; otherwise leave it unchanged. -/
def updatePotBalance (pot : Nat) (walletBalance : Option Nat) : Nat :=
  match walletBalance with
  | none => pot
  | some wb => potFromWallet wb

theorem baseAmount_le_potAfterGrowth (cfg : PotConfig) (pot : Nat) :
    cfg.baseAmount ≤ potAfterGrowth cfg pot := by
  unfold potAfterGrowth
  dsimp only
  split
  · omega
  · omega

/-- Counterexample to C2 as stated: `updatePotBalance` (the external
pool-funding reconciliation) lowers a 1 SOL pot to 0, below
`min(previousPot, baseAmount)` with the default base amount 10⁷,
when the fee wallet's observed balance is 0. -/
theorem updatePotBalance_decreases_counterexample :
    updatePotBalance 1000000000 (some 0) < min 1000000000 10000000 := by
  norm_num [updatePotBalance, potFromWallet]

/-- Claim C2 (amended): the pot-growth application satisfies
`newPot ≥ min(previousPot, baseAmount)` (indeed `newPot ≥ baseAmount`), and
the wallet-funding step inside it only ever raises the pot; but
`updatePotBalance` sets the pot to 70% of the wallet balance unconditionally
and can lower it. -/
theorem applyPotGrowth_ge_min (cfg : PotConfig) (pot : Nat) (wb : Option Nat) :
    min pot cfg.baseAmount ≤ applyPotGrowth cfg pot wb ∧
    applyPotGrowth cfg pot none ≤ applyPotGrowth cfg pot wb := by
  have hbase := baseAmount_le_potAfterGrowth cfg pot
  have hup : potAfterGrowth cfg pot ≤ applyPotGrowth cfg pot wb := by
    unfold applyPotGrowth
    match wb with
    | none => exact le_refl _
    | some w =>
      dsimp only
      split
      · omega
      · omega
  refine ⟨le_trans (le_trans (min_le_right _ _) hbase) hup, ?_⟩
  simpa [applyPotGrowth] using hup

end WheelGame.GameEngine

namespace WheelGame.GameEngine

/-- The winner split of `GameEngine.processWinnerPayout`:
`Math.floor(currentPot * (winnerPercentage / 100))`. -/
def winnerPayoutOf (pot : Nat) (winnerPercentage : ℚ) : Nat :=
  (⌊(pot : ℚ) * (winnerPercentage / 100)⌋).toNat

/-- The creator split of `GameEngine.processWinnerPayout`:
`Math.floor(currentPot * (creatorPercentage / 100))`. -/
def creatorPayoutOf (pot : Nat) (creatorPercentage : ℚ) : Nat :=
  (⌊(pot : ℚ) * (creatorPercentage / 100)⌋).toNat

/-- Claim C10. A round never disburses more than its pot snapshot: with
non-negative percentages summing to at most 100, the floored winner and
creator payouts together never exceed the pot. -/
theorem payouts_le_pot (pot : Nat) (w c : ℚ) (hw : 0 ≤ w) (hc : 0 ≤ c)
    (hwc : w + c ≤ 100) :
    winnerPayoutOf pot w + creatorPayoutOf pot c ≤ pot := by
  unfold winnerPayoutOf creatorPayoutOf
  have hpw : (0 : ℚ) ≤ (pot : ℚ) * (w / 100) :=
    mul_nonneg (Nat.cast_nonneg _) (by positivity)
  have hpc : (0 : ℚ) ≤ (pot : ℚ) * (c / 100) :=
    mul_nonneg (Nat.cast_nonneg _) (by positivity)
  have hfw : (0 : Int) ≤ ⌊(pot : ℚ) * (w / 100)⌋ := Int.floor_nonneg.mpr hpw
  have hfc : (0 : Int) ≤ ⌊(pot : ℚ) * (c / 100)⌋ := Int.floor_nonneg.mpr hpc
  have hsum : ⌊(pot : ℚ) * (w / 100)⌋ + ⌊(pot : ℚ) * (c / 100)⌋ ≤ (pot : Int) := by
    have h1 : ((⌊(pot : ℚ) * (w / 100)⌋ + ⌊(pot : ℚ) * (c / 100)⌋ : Int) : ℚ)
        ≤ (pot : ℚ) * (w / 100) + (pot : ℚ) * (c / 100) := by
      push_cast
      exact add_le_add (Int.floor_le _) (Int.floor_le _)
    have h2 : (pot : ℚ) * (w / 100) + (pot : ℚ) * (c / 100) ≤ (pot : ℚ) := by
      have : (pot : ℚ) * (w / 100) + (pot : ℚ) * (c / 100)
          = (pot : ℚ) * ((w + c) / 100) := by ring
      rw [this]
      have hle1 : (w + c) / 100 ≤ 1 := by linarith
      calc (pot : ℚ) * ((w + c) / 100) ≤ (pot : ℚ) * 1 :=
            mul_le_mul_of_nonneg_left hle1 (Nat.cast_nonneg _)
        _ = (pot : ℚ) := mul_one _
    have := le_trans h1 h2
    exact_mod_cast this
  omega

/-- Witness for C10: the spec scenario pot = 10,000,000 with a 50/50 split
pays out 5,000,000 + 5,000,000 ≤ 10,000,000. -/
theorem payouts_le_pot_witness :
    winnerPayoutOf 10000000 50 + creatorPayoutOf 10000000 50 ≤ 10000000 :=
  payouts_le_pot 10000000 50 50 (by norm_num) (by norm_num) (by norm_num)

end WheelGame.GameEngine

namespace WheelGame.HolderTracker

/-- `HolderTracker.updateTokenSupply` threshold:
`minimumHoldAmount = Math.floor(totalSupply * (minPercentage / 100))`. -/
def minimumHoldAmountOf (totalSupply : Nat) (minPercentage : ℚ) : Nat :=
  (⌊(totalSupply : ℚ) * (minPercentage / 100)⌋).toNat

/-- Counterexample to C8 as stated: with the default percentage 0.1, supply
1500 gives threshold ⌊1.5⌋ = 1, but supply 3000 gives ⌊3⌋ = 3 ≠ 2·1 — the
flooring breaks exact doubling. -/
theorem minimumHoldAmount_doubling_counterexample :
    minimumHoldAmountOf 3000 (1 / 10) ≠ 2 * minimumHoldAmountOf 1500 (1 / 10) := by
  norm_num [minimumHoldAmountOf]
  decide

/-- Claim C8 (amended): for a non-negative percentage, doubling the supply
at least doubles the threshold and exceeds twice the old threshold by at
most 1 (exact doubling fails only by the flooring remainder). -/
theorem minimumHoldAmount_doubling_bounds (s : Nat) (p : ℚ) (hp : 0 ≤ p) :
    2 * minimumHoldAmountOf s p ≤ minimumHoldAmountOf (2 * s) p ∧
    minimumHoldAmountOf (2 * s) p ≤ 2 * minimumHoldAmountOf s p + 1 := by
  unfold minimumHoldAmountOf
  have hx : (0 : ℚ) ≤ (s : ℚ) * (p / 100) :=
    mul_nonneg (Nat.cast_nonneg _) (by positivity)
  have hxf : (0 : Int) ≤ ⌊(s : ℚ) * (p / 100)⌋ := Int.floor_nonneg.mpr hx
  have hdouble : ((2 * s : Nat) : ℚ) * (p / 100) = 2 * ((s : ℚ) * (p / 100)) := by
    push_cast; ring
  have hlo : 2 * ⌊(s : ℚ) * (p / 100)⌋ ≤ ⌊((2 * s : Nat) : ℚ) * (p / 100)⌋ := by
    rw [hdouble]
    refine Int.le_floor.mpr ?_
    push_cast
    have := Int.floor_le ((s : ℚ) * (p / 100))
    linarith
  have hhi : ⌊((2 * s : Nat) : ℚ) * (p / 100)⌋ ≤ 2 * ⌊(s : ℚ) * (p / 100)⌋ + 1 := by
    rw [hdouble]
    have hlt : 2 * ((s : ℚ) * (p / 100)) < ((2 * ⌊(s : ℚ) * (p / 100)⌋ + 2 : Int) : ℚ) := by
      push_cast
      have := Int.lt_floor_add_one ((s : ℚ) * (p / 100))
      linarith
    have := Int.floor_lt.mpr hlt
    omega
  omega

/-- Witness for C8's amended theorem: the spec scenario supply 1,000,000 at
0.1% (threshold 1,000) doubles to supply 2,000,000 within the bounds. -/
theorem minimumHoldAmount_doubling_bounds_witness :
    2 * minimumHoldAmountOf 1000000 (1 / 10) ≤ minimumHoldAmountOf (2 * 1000000) (1 / 10) ∧
    minimumHoldAmountOf (2 * 1000000) (1 / 10) ≤ 2 * minimumHoldAmountOf 1000000 (1 / 10) + 1 :=
  minimumHoldAmount_doubling_bounds 1000000 (1 / 10) (by norm_num)

end WheelGame.HolderTracker

namespace WheelGame.PayoutService

/-- Status values of a Payout record. -/
inductive PayoutStatus
  | pending
  | completed
  | failed
  | simulated
deriving Repr, DecidableEq

/-- Errors thrown inside the payout pipeline. -/
inductive PayoutError
  | insufficientFunds (required available : Nat)
  | hotWalletNotConfigured
  | creatorWalletNotConfigured
  | sendError (msg : String)
deriving Repr, DecidableEq

/-- A Payout record as kept in `pendingPayouts` / `payoutHistory`. -/
structure Payout where
  id : String
  winnerAddress : String
  winnerAmount : Nat
  creatorAmount : Nat
  totalAmount : Nat
  status : PayoutStatus
  attempts : Nat
  transactionSignature : Option String
  error : Option PayoutError
deriving Repr, DecidableEq

/-- Environment for one run of the payout pipeline: wallet configuration,
the hot wallet's observed WSOL balance, the outcome the network gives each
submission attempt (1-based), and the time / random suffix consumed by
`generatePayoutId`. -/
structure PayoutEnv where
  hotWallet : Option String
  creatorWallet : Option String
  hotWalletWsolBalance : Nat
  sendOutcome : Nat → Except PayoutError String
  now : Nat
  rand : String

/-- `PayoutService.generatePayoutId`:
`payout_${Date.now()}_${Math.random().toString(36).substr(2, 9)}`. -/
def generatePayoutId (now : Nat) (rand : String) : String :=
  "payout_" ++ toString now ++ "_" ++ rand

/-- Trace of one run of the retry loop of
`PayoutService.sendTransactionWithRetry`: final result, the final value of
`payout.attempts`, the backoff delays waited (in order, ms), and how many
fresh-blockhash re-fetches were performed (one after each delay). -/
structure RetryTrace where
  result : Except PayoutError String
  attemptsMade : Nat
  delays : List Nat
  blockhashFetches : Nat
deriving Repr

/-- The `for (let attempt = 1; attempt <= this.retryAttempts; attempt++)`
loop of `sendTransactionWithRetry`, run from attempt number `attempt` with
`remaining` attempts still allowed (the `remaining = 0` base case is the
fallthrough a zero-iteration loop would give; unreachable for
`retryAttempts ≥ 1`). On a failed non-final attempt it waits
`retryDelay * 2 ^ (attempt - 1)` and re-fetches a blockhash. -/
def sendRetryGo (sendOutcome : Nat → Except PayoutError String) (retryDelay : Nat) :
    Nat → Nat → RetryTrace
  | attempt, 0 =>
    { result := Except.error (PayoutError.sendError "loop exhausted"),
      attemptsMade := attempt - 1, delays := [], blockhashFetches := 0 }
  | attempt, remaining + 1 =>
    match sendOutcome attempt with
    | Except.ok sig =>
      { result := Except.ok sig, attemptsMade := attempt, delays := [],
        blockhashFetches := 0 }
    | Except.error e =>
      if remaining = 0 then
        { result := Except.error e, attemptsMade := attempt, delays := [],
          blockhashFetches := 0 }
      else
        let t := sendRetryGo sendOutcome retryDelay (attempt + 1) remaining
        { result := t.result, attemptsMade := t.attemptsMade,
          delays := retryDelay * 2 ^ (attempt - 1) :: t.delays,
          blockhashFetches := t.blockhashFetches + 1 }

/-- `PayoutService.sendTransactionWithRetry` with `retryAttempts` attempts
allowed and base delay `retryDelay`. -/
def sendTransactionWithRetry (sendOutcome : Nat → Except PayoutError String)
    (retryAttempts retryDelay : Nat) : RetryTrace :=
  sendRetryGo sendOutcome retryDelay 1 retryAttempts

/-- Trace of `PayoutService.executePayoutTransaction`: result, final
`payout.attempts`, number of raw-transaction submissions, and whether any
network (gateway) call was made at all. -/
structure ExecTrace where
  result : Except PayoutError String
  attempts : Nat
  submissions : Nat
  madeNetworkCall : Bool
deriving Repr

/-- `PayoutService.executePayoutTransaction`: re-check the hot wallet,
check the hot wallet's WSOL balance against `payout.totalAmount`
(throwing insufficient-funds before building any transfer), require the
creator wallet when `creatorAmount > 0`, then build the transaction, fetch
a blockhash and enter `sendTransactionWithRetry`. -/
def executePayoutTransaction (env : PayoutEnv) (totalAmount creatorAmount : Nat)
    (retryAttempts retryDelay : Nat) : ExecTrace :=
  match env.hotWallet with
  | none =>
    { result := Except.error PayoutError.hotWalletNotConfigured,
      attempts := 0, submissions := 0, madeNetworkCall := false }
  | some _ =>
    if env.hotWalletWsolBalance < totalAmount then
      { result := Except.error
          (PayoutError.insufficientFunds totalAmount env.hotWalletWsolBalance),
        attempts := 0, submissions := 0, madeNetworkCall := true }
    else if 0 < creatorAmount ∧ env.creatorWallet = none then
      { result := Except.error PayoutError.creatorWalletNotConfigured,
        attempts := 0, submissions := 0, madeNetworkCall := true }
    else
      let t := sendTransactionWithRetry env.sendOutcome retryAttempts retryDelay
      { result := t.result, attempts := t.attemptsMade,
        submissions := t.attemptsMade, madeNetworkCall := true }

/-- Outcome of `PayoutService.processWinnerPayout`: the returned/thrown
result, the final Payout record, the number of submissions made and whether
any network call happened. -/
structure PipelineResult where
  result : Except PayoutError String
  payout : Payout
  submissions : Nat
  madeNetworkCall : Bool
deriving Repr

/-- `PayoutService.processWinnerPayout`: with no hot wallet configured,
record a `simulated` payout with pseudo-reference `simulated_${payoutId}`
and return it with no network call; otherwise create a pending payout, run
`executePayoutTransaction`, and mark the payout `completed` (with its
signature) or `failed` (with the error recorded), rethrowing the error. -/
def processWinnerPayout (env : PayoutEnv) (winnerAddress : String)
    (winnerAmount creatorAmount : Nat) (retryAttempts retryDelay : Nat) :
    PipelineResult :=
  let payoutId := generatePayoutId env.now env.rand
  match env.hotWallet with
  | none =>
    let payout : Payout :=
      { id := payoutId, winnerAddress := winnerAddress,
        winnerAmount := winnerAmount, creatorAmount := creatorAmount,
        totalAmount := winnerAmount + creatorAmount,
        status := PayoutStatus.simulated, attempts := 0,
        transactionSignature := some ("simulated_" ++ payoutId), error := none }
    { result := Except.ok ("simulated_" ++ payoutId), payout := payout,
      submissions := 0, madeNetworkCall := false }
  | some _ =>
    let pending : Payout :=
      { id := payoutId, winnerAddress := winnerAddress,
        winnerAmount := winnerAmount, creatorAmount := creatorAmount,
        totalAmount := winnerAmount + creatorAmount,
        status := PayoutStatus.pending, attempts := 0,
        transactionSignature := none, error := none }
    let t := executePayoutTransaction env (winnerAmount + creatorAmount)
      creatorAmount retryAttempts retryDelay
    match t.result with
    | Except.ok sig =>
      { result := Except.ok sig,
        payout := { pending with
                    status := PayoutStatus.completed,
                    attempts := t.attempts,
                    transactionSignature := some sig },
        submissions := t.submissions, madeNetworkCall := t.madeNetworkCall }
    | Except.error e =>
      { result := Except.error e,
        payout := { pending with
                    status := PayoutStatus.failed,
                    attempts := t.attempts,
                    error := some e },
        submissions := t.submissions, madeNetworkCall := t.madeNetworkCall }

end WheelGame.PayoutService

namespace WheelGame.PayoutService

theorem sendRetryGo_attempts_bounds (so : Nat → Except PayoutError String)
    (rd : Nat) :
    ∀ remaining attempt, 1 ≤ remaining →
      attempt ≤ (sendRetryGo so rd attempt remaining).attemptsMade ∧
      (sendRetryGo so rd attempt remaining).attemptsMade ≤ attempt + remaining - 1 := by
  intro remaining
  induction remaining with
  | zero => intro attempt h; omega
  | succ r ih =>
    intro attempt _
    unfold sendRetryGo
    cases hso : so attempt with
    | ok sig => simp
    | error e =>
      by_cases hr : r = 0
      · subst hr; simp
      · simp only [hso, if_neg hr]
        have h := ih (attempt + 1) (by omega)
        omega

theorem sendRetryGo_delays (so : Nat → Except PayoutError String) (rd : Nat) :
    ∀ remaining attempt, 1 ≤ attempt →
      (sendRetryGo so rd attempt remaining).delays =
        (List.range ((sendRetryGo so rd attempt remaining).attemptsMade - attempt)).map
          (fun n => rd * 2 ^ (attempt - 1 + n)) := by
  intro remaining
  induction remaining with
  | zero => intro attempt _; simp [sendRetryGo]
  | succ r ih =>
    intro attempt ha
    unfold sendRetryGo
    cases hso : so attempt with
    | ok sig => simp
    | error e =>
      by_cases hr : r = 0
      · subst hr; simp
      · simp only [hso, if_neg hr]
        have hb := sendRetryGo_attempts_bounds so rd r (attempt + 1) (by omega)
        have hih := ih (attempt + 1) (by omega)
        rw [hih]
        have hk : (sendRetryGo so rd (attempt + 1) r).attemptsMade - attempt
            = ((sendRetryGo so rd (attempt + 1) r).attemptsMade - (attempt + 1)) + 1 := by
          omega
        rw [hk, List.range_succ_eq_map, List.map_cons, List.map_map]
        have h0 : rd * 2 ^ (attempt - 1 + 0) = rd * 2 ^ (attempt - 1) := by norm_num
        have hfun : ∀ n, attempt - 1 + Nat.succ n = attempt + 1 - 1 + n := by omega
        simp only [h0]
        congr 1
        apply List.map_congr_left
        intro n _
        simp only [Function.comp]
        rw [hfun n]

theorem sendRetryGo_fetches (so : Nat → Except PayoutError String) (rd : Nat) :
    ∀ remaining attempt,
      (sendRetryGo so rd attempt remaining).blockhashFetches =
        (sendRetryGo so rd attempt remaining).attemptsMade - attempt := by
  intro remaining
  induction remaining with
  | zero => intro attempt; simp [sendRetryGo]
  | succ r ih =>
    intro attempt
    unfold sendRetryGo
    cases hso : so attempt with
    | ok sig => simp
    | error e =>
      by_cases hr : r = 0
      · subst hr; simp
      · simp only [hso, if_neg hr]
        have hb := sendRetryGo_attempts_bounds so rd r (attempt + 1) (by omega)
        have hih := ih (attempt + 1)
        omega

theorem sendRetryGo_error (so : Nat → Except PayoutError String) (rd : Nat) :
    ∀ remaining attempt e, 1 ≤ remaining →
      (sendRetryGo so rd attempt remaining).result = Except.error e →
      (sendRetryGo so rd attempt remaining).attemptsMade = attempt + remaining - 1 ∧
      so (attempt + remaining - 1) = Except.error e := by
  intro remaining
  induction remaining with
  | zero => intro attempt e h; omega
  | succ r ih =>
    intro attempt e _
    unfold sendRetryGo
    cases hso : so attempt with
    | ok sig => intro h; exact absurd h (by simp)
    | error e0 =>
      by_cases hr : r = 0
      · subst hr
        simp only [hso, if_pos rfl]
        intro h
        have he : e0 = e := Except.error.inj h
        subst he
        exact ⟨by simp, by simpa using hso⟩
      · simp only [hso, if_neg hr]
        intro h
        have := ih (attempt + 1) e (by omega) h
        refine ⟨by omega, ?_⟩
        have harith : attempt + 1 + r - 1 = attempt + (r + 1) - 1 := by omega
        rw [harith] at this
        exact this.2

end WheelGame.PayoutService

namespace WheelGame.PayoutService

theorem executePayoutTransaction_attempts_le (env : PayoutEnv)
    (tA cA ra rd : Nat) (hra : 1 ≤ ra) :
    (executePayoutTransaction env tA cA ra rd).attempts ≤ ra := by
  unfold executePayoutTransaction
  cases hw : env.hotWallet with
  | none => simp
  | some w =>
    by_cases hb : env.hotWalletWsolBalance < tA
    · simp [hb]
    · by_cases hc : 0 < cA ∧ env.creatorWallet = none
      · simp [hb, hc]
      · simp only [hb, hc, if_neg, if_false]
        have := sendRetryGo_attempts_bounds env.sendOutcome rd ra 1 hra
        simp only [sendTransactionWithRetry]
        omega

theorem processWinnerPayout_attempts_le (env : PayoutEnv) (wA : String)
    (wAmt cAmt ra rd : Nat) (hra : 1 ≤ ra) :
    (processWinnerPayout env wA wAmt cAmt ra rd).payout.attempts ≤ ra := by
  unfold processWinnerPayout
  cases hw : env.hotWallet with
  | none => simp
  | some w =>
    have hx := executePayoutTransaction_attempts_le env (wAmt + cAmt) cAmt ra rd hra
    cases ht : (executePayoutTransaction env (wAmt + cAmt) cAmt ra rd).result with
    | ok sig => simp only [ht]; simpa using hx
    | error e => simp only [ht]; simpa using hx

theorem processWinnerPayout_error_failed (env : PayoutEnv) (wA : String)
    (wAmt cAmt ra rd : Nat) (e : PayoutError)
    (h : (processWinnerPayout env wA wAmt cAmt ra rd).result = Except.error e) :
    (processWinnerPayout env wA wAmt cAmt ra rd).payout.status = PayoutStatus.failed ∧
    (processWinnerPayout env wA wAmt cAmt ra rd).payout.error = some e := by
  unfold processWinnerPayout at h ⊢
  split at h
  · simp at h
  · rename_i w hw
    dsimp only at h
    split at h
    · simp at h
    · rename_i e0 ht
      simp only [hw, ht]
      simp at h
      subst h
      exact ⟨by trivial, by trivial⟩

/-- Claim C3. For every payout submission, at most `retryAttempts` (default
3) attempts are made; the delay before retry attempt n+1 is
`retryDelay * 2^(n-1)` (the i-th recorded delay, 0-based, is
`retryDelay * 2^i`); one fresh blockhash is re-fetched per retry; an
exhausted loop returns the last attempt's error, which the pipeline records
on a terminal `failed` payout; and no payout — in particular no `completed`
one — ever has `attempts > retryAttempts`. -/
theorem payout_retry_policy (so : Nat → Except PayoutError String)
    (retryAttempts retryDelay : Nat) (hra : 1 ≤ retryAttempts) :
    (sendTransactionWithRetry so retryAttempts retryDelay).attemptsMade ≤ retryAttempts ∧
    (sendTransactionWithRetry so retryAttempts retryDelay).delays =
      (List.range ((sendTransactionWithRetry so retryAttempts retryDelay).attemptsMade - 1)).map
        (fun n => retryDelay * 2 ^ n) ∧
    (sendTransactionWithRetry so retryAttempts retryDelay).blockhashFetches =
      (sendTransactionWithRetry so retryAttempts retryDelay).attemptsMade - 1 ∧
    (∀ e, (sendTransactionWithRetry so retryAttempts retryDelay).result = Except.error e →
      (sendTransactionWithRetry so retryAttempts retryDelay).attemptsMade = retryAttempts ∧
      so retryAttempts = Except.error e) ∧
    (∀ (env : PayoutEnv) (wA : String) (wAmt cAmt : Nat),
      (processWinnerPayout env wA wAmt cAmt retryAttempts retryDelay).payout.attempts
        ≤ retryAttempts ∧
      (∀ e, (processWinnerPayout env wA wAmt cAmt retryAttempts retryDelay).result
          = Except.error e →
        (processWinnerPayout env wA wAmt cAmt retryAttempts retryDelay).payout.status
          = PayoutStatus.failed ∧
        (processWinnerPayout env wA wAmt cAmt retryAttempts retryDelay).payout.error
          = some e)) := by
  refine ⟨?_, ?_, ?_, ?_, ?_⟩
  · have := sendRetryGo_attempts_bounds so retryDelay retryAttempts 1 hra
    simp only [sendTransactionWithRetry]
    omega
  · have h := sendRetryGo_delays so retryDelay retryAttempts 1 (le_refl 1)
    simp only [sendTransactionWithRetry] at h ⊢
    simpa using h
  · exact sendRetryGo_fetches so retryDelay retryAttempts 1
  · intro e he
    have h := sendRetryGo_error so retryDelay retryAttempts 1 e hra he
    simpa using h
  · intro env wA wAmt cAmt
    exact ⟨processWinnerPayout_attempts_le env wA wAmt cAmt retryAttempts retryDelay hra,
      fun e he => processWinnerPayout_error_failed env wA wAmt cAmt retryAttempts retryDelay e he⟩

/-- Witness for C3: attempts 1 and 2 fail, attempt 3 succeeds (max 3, base
delay 5000 ms) — the loop makes at most 3 attempts, and concretely waits
5000 then 10000 ms with 2 blockhash re-fetches before succeeding. -/
theorem payout_retry_policy_witness :
    (sendTransactionWithRetry
      (fun n => if n < 3 then Except.error (PayoutError.sendError "transient")
                else Except.ok "sig") 3 5000).attemptsMade ≤ 3 ∧
    (sendTransactionWithRetry
      (fun n => if n < 3 then Except.error (PayoutError.sendError "transient")
                else Except.ok "sig") 3 5000).delays = [5000, 10000] ∧
    (sendTransactionWithRetry
      (fun n => if n < 3 then Except.error (PayoutError.sendError "transient")
                else Except.ok "sig") 3 5000).blockhashFetches = 2 :=
  ⟨(payout_retry_policy
      (fun n => if n < 3 then Except.error (PayoutError.sendError "transient")
                else Except.ok "sig") 3 5000 (by norm_num)).1,
    by rfl, by rfl⟩

end WheelGame.PayoutService

namespace WheelGame.PayoutService

/-- Claim C4. A payout whose required total (winner + creator amount)
exceeds the disbursing hot wallet's balance fails synchronously with an
insufficient-funds error before any transfer is built: no submission
attempt is made and the payout record keeps `attempts = 0`, ending
`failed`. -/
theorem insufficient_balance_no_attempt (env : PayoutEnv) (wA : String)
    (wAmt cAmt ra rd : Nat) (w : String)
    (hw : env.hotWallet = some w)
    (hbal : env.hotWalletWsolBalance < wAmt + cAmt) :
    (processWinnerPayout env wA wAmt cAmt ra rd).result =
      Except.error (PayoutError.insufficientFunds (wAmt + cAmt)
        env.hotWalletWsolBalance) ∧
    (processWinnerPayout env wA wAmt cAmt ra rd).submissions = 0 ∧
    (processWinnerPayout env wA wAmt cAmt ra rd).payout.attempts = 0 ∧
    (processWinnerPayout env wA wAmt cAmt ra rd).payout.status = PayoutStatus.failed := by
  have hexec : executePayoutTransaction env (wAmt + cAmt) cAmt ra rd =
      { result := Except.error (PayoutError.insufficientFunds (wAmt + cAmt)
          env.hotWalletWsolBalance),
        attempts := 0, submissions := 0, madeNetworkCall := true } := by
    unfold executePayoutTransaction
    rw [hw]
    simp [hbal]
  unfold processWinnerPayout
  rw [hw]
  simp [hexec]

/-- Witness for C4: winnerAmount 600 + creatorAmount 400 against a
disbursing balance of 500 yields the insufficient-funds failure with zero
submissions and `attempts = 0`. -/
theorem insufficient_balance_no_attempt_witness :
    (processWinnerPayout
        ⟨some "HW", some "CW", 500, fun _ => Except.ok "s", 0, "r"⟩
        "W" 600 400 3 5000).result =
      Except.error (PayoutError.insufficientFunds 1000 500) ∧
    (processWinnerPayout
        ⟨some "HW", some "CW", 500, fun _ => Except.ok "s", 0, "r"⟩
        "W" 600 400 3 5000).submissions = 0 ∧
    (processWinnerPayout
        ⟨some "HW", some "CW", 500, fun _ => Except.ok "s", 0, "r"⟩
        "W" 600 400 3 5000).payout.attempts = 0 := by
  have h := insufficient_balance_no_attempt
    ⟨some "HW", some "CW", 500, fun _ => Except.ok "s", 0, "r"⟩
    "W" 600 400 3 5000 "HW" rfl (by norm_num)
  exact ⟨h.1, h.2.1, h.2.2.1⟩

/-- Counterexample to C6 as stated: with no hot wallet configured, two runs
with the same winner address and amounts but different `Date.now()`
timestamps return different pseudo-references — the fabricated reference is
not a deterministic function of winner address and amounts. -/
theorem simulated_reference_not_deterministic :
    (processWinnerPayout ⟨none, none, 0, fun _ => Except.ok "s", 1, "r"⟩
        "W" 600 400 3 5000).result ≠
      (processWinnerPayout ⟨none, none, 0, fun _ => Except.ok "s", 2, "r"⟩
        "W" 600 400 3 5000).result := by
  have h1 : (processWinnerPayout ⟨none, none, 0, fun _ => Except.ok "s", 1, "r"⟩
      "W" 600 400 3 5000).result = Except.ok "simulated_payout_1_r" := rfl
  have h2 : (processWinnerPayout ⟨none, none, 0, fun _ => Except.ok "s", 2, "r"⟩
      "W" 600 400 3 5000).result = Except.ok "simulated_payout_2_r" := rfl
  rw [h1, h2]
  intro hx
  have hs : "simulated_payout_1_r" = "simulated_payout_2_r" := Except.ok.inj hx
  exact absurd hs (by decide)

/-- Claim C6 (amended): when no hot wallet is configured,
`processWinnerPayout` does not throw and makes no network call, records the
payout with status `simulated` and `attempts = 0`, and returns the
pseudo-reference `simulated_` + payout id — deterministic given the
generated payout id (time + random suffix), though not a function of the
winner address and amounts alone. -/
theorem simulatedMode_spec (env : PayoutEnv) (wA : String)
    (wAmt cAmt ra rd : Nat) (hw : env.hotWallet = none) :
    (processWinnerPayout env wA wAmt cAmt ra rd).result =
      Except.ok ("simulated_" ++ generatePayoutId env.now env.rand) ∧
    (processWinnerPayout env wA wAmt cAmt ra rd).madeNetworkCall = false ∧
    (processWinnerPayout env wA wAmt cAmt ra rd).payout.status = PayoutStatus.simulated ∧
    (processWinnerPayout env wA wAmt cAmt ra rd).payout.attempts = 0 ∧
    (processWinnerPayout env wA wAmt cAmt ra rd).payout.transactionSignature =
      some ("simulated_" ++ generatePayoutId env.now env.rand) := by
  unfold processWinnerPayout
  rw [hw]
  simp

/-- Witness for C6's amended theorem: a concrete run without a hot wallet
returns `simulated_payout_1_r`, makes no network call and records a
`simulated` payout. -/
theorem simulatedMode_spec_witness :
    (processWinnerPayout ⟨none, none, 0, fun _ => Except.ok "s", 1, "r"⟩
        "W" 600 400 3 5000).result = Except.ok "simulated_payout_1_r" ∧
    (processWinnerPayout ⟨none, none, 0, fun _ => Except.ok "s", 1, "r"⟩
        "W" 600 400 3 5000).madeNetworkCall = false ∧
    (processWinnerPayout ⟨none, none, 0, fun _ => Except.ok "s", 1, "r"⟩
        "W" 600 400 3 5000).payout.status = PayoutStatus.simulated := by
  have h := simulatedMode_spec ⟨none, none, 0, fun _ => Except.ok "s", 1, "r"⟩
    "W" 600 400 3 5000 rfl
  exact ⟨by simpa using h.1, h.2.1, h.2.2.1⟩

end WheelGame.PayoutService

namespace WheelGame.HolderTracker

/-- Raw holder row as returned by the ledger gateway's `getTokenHolders`. -/
structure RawHolder where
  owner : String
  balance : Nat
  tokenAccount : String
deriving Repr, DecidableEq

/-- `HolderTracker.isBurnAddress`: membership in the fixed burn/program
list, or the address starting with 31 ones (`startsWith`, modelled on the
underlying character lists). -/
def isBurnAddress (address : String) : Bool :=
  (["11111111111111111111111111111111",
    "So11111111111111111111111111111111111111112",
    "1nc1nerator11111111111111111111111111111111",
    "6EF8rrecthR5Dkzon8NQtpjxarMxGrbz7QcGMw1gcx",
    "9KJRLL6VHRo5Yvh9LHs4FciL4McCXZBQzgWDNg3aKXDY"].contains address) ||
  List.isPrefixOf "1111111111111111111111111111111".data address.data

/-- `HolderTracker.optimizeUpdateFrequency`: three-tier update frequency
(ms), keyed on the holder count it is passed — in `scanHolders` that is
`totalCount = this.holders.size`, the total tracked holder count. -/
def optimizeUpdateFrequency (holderCount : Nat) : Nat :=
  if holderCount < 50 then 5000
  else if holderCount < 200 then 15000
  else 30000

/-- Result of one `HolderTracker.scanHolders` pass: the new snapshot and
eligible sub-snapshot, the adapted `updateFrequency`, the `setInterval`
check period `min(updateFrequency, 5000)` used by `startTracking`, and
whether the tracking timer was restarted. -/
structure ScanResult where
  holders : List Holder
  eligibleHolders : List Holder
  updateFrequency : Nat
  checkPeriod : Nat
  trackingRestarted : Bool
deriving Repr, DecidableEq

/-- The pure core of `HolderTracker.scanHolders`: drop zero balances and
burn addresses, mark eligibility by `balance >= minimumHoldAmount`, swap in
the new maps, then call `optimizeUpdateFrequency(totalCount)` with the
TOTAL tracked count, which restarts the tracking timer (check period
`min(updateFrequency, 5000)`) when tracking is running. -/
def scanHolders (minimumHoldAmount : Nat) (tracking : Bool)
    (raw : List RawHolder) : ScanResult :=
  let kept := raw.filter (fun h => h.balance != 0 && !(isBurnAddress h.owner))
  let holders := kept.map (fun h => Holder.mk h.owner h.balance)
  let eligible := holders.filter (fun h => minimumHoldAmount ≤ h.balance)
  let freq := optimizeUpdateFrequency holders.length
  { holders := holders, eligibleHolders := eligible, updateFrequency := freq,
    checkPeriod := min freq 5000, trackingRestarted := tracking }

/-- Counterexample to C5 as stated: a scan yielding 50 tracked holders of
which only 1 is eligible sets the interval from the TOTAL count
(50 → 15 s), not from the eligible population (1 → 5 s as claimed). -/
theorem rescan_interval_counterexample :
    ((scanHolders 1000 true ((List.range 50).map
        (fun i => ⟨"h" ++ toString i, if i = 0 then 1000 else 1, "t"⟩))).eligibleHolders.length
      = 1) ∧
    ((scanHolders 1000 true ((List.range 50).map
        (fun i => ⟨"h" ++ toString i, if i = 0 then 1000 else 1, "t"⟩))).updateFrequency
      = 15000) ∧
    (scanHolders 1000 true ((List.range 50).map
        (fun i => ⟨"h" ++ toString i, if i = 0 then 1000 else 1, "t"⟩))).updateFrequency
      ≠ optimizeUpdateFrequency
          ((scanHolders 1000 true ((List.range 50).map
            (fun i => ⟨"h" ++ toString i, if i = 0 then 1000 else 1, "t"⟩))).eligibleHolders.length) := by
  refine ⟨by decide, by decide, by decide⟩

/-- Claim C5 (amended): after every holder scan the update frequency is set
by the three-tier policy applied to the TOTAL tracked holder count (after
filtering zero balances and burn addresses): fewer than 50 → 5 s, fewer
than 200 → 15 s, otherwise 30 s; the eligible sub-snapshot is the holders
with balance ≥ the minimum hold; and the tracking timer is restarted (when
running) with check period `min(newFrequency, 5000)` ms, rescans being
gated at the new frequency. -/
theorem rescan_interval_policy (minHold : Nat) (tracking : Bool)
    (raw : List RawHolder) :
    let r := scanHolders minHold tracking raw
    r.updateFrequency = optimizeUpdateFrequency r.holders.length ∧
    (r.holders.length < 50 → r.updateFrequency = 5000) ∧
    (50 ≤ r.holders.length → r.holders.length < 200 → r.updateFrequency = 15000) ∧
    (200 ≤ r.holders.length → r.updateFrequency = 30000) ∧
    r.eligibleHolders = r.holders.filter (fun h => minHold ≤ h.balance) ∧
    r.checkPeriod = min r.updateFrequency 5000 ∧
    r.trackingRestarted = tracking := by
  intro r
  have hfreq : r.updateFrequency = optimizeUpdateFrequency r.holders.length := rfl
  refine ⟨hfreq, ?_, ?_, ?_, rfl, rfl, rfl⟩
  · intro h1
    rw [hfreq]
    unfold optimizeUpdateFrequency
    rw [if_pos h1]
  · intro h1 h2
    rw [hfreq]
    unfold optimizeUpdateFrequency
    rw [if_neg (by omega), if_pos h2]
  · intro h1
    rw [hfreq]
    unfold optimizeUpdateFrequency
    rw [if_neg (by omega), if_neg (by omega)]

/-- Witness for C5's amended theorem: a scan with 10 tracked holders lands
in the first tier (5 s). -/
theorem rescan_interval_policy_witness :
    (scanHolders 1000 true ((List.range 10).map
        (fun i => ⟨"h" ++ toString i, 1000, "t"⟩))).updateFrequency = 5000 := by
  have h := rescan_interval_policy 1000 true ((List.range 10).map
      (fun i => ⟨"h" ++ toString i, 1000, "t"⟩))
  exact h.2.1 (by decide)

end WheelGame.HolderTracker

namespace WheelGame.GameEngine

/-- Engine cycle states (`this.gameState` in the source:
waiting, spinning, processing, paused). -/
inductive GameState
  | waiting
  | spinning
  | processing
  | paused
deriving Repr, DecidableEq

/-- `GameEngine.calculateNextSpinTime`: round the current time (ms since
epoch) up to the next multiple of `spinInterval` minutes within the hour,
zeroing seconds/millis; when the result is less than 10 s away (or already
past), add one full interval. -/
def calculateNextSpinTime (now : Nat) (spinInterval : Nat) : Nat :=
  let minutes := now / 60000 % 60
  let hourStart := now - now % 3600000
  let rounded := ((minutes + spinInterval - 1) / spinInterval) * spinInterval
  let nextSpin := hourStart + rounded * 60000
  if nextSpin - now < 10000 then nextSpin + spinInterval * 60000 else nextSpin

/-- The slice of Game-Engine state driving the cadence. -/
structure EngineState where
  gameState : GameState
  currentPot : Nat
  nextSpinTime : Nat
deriving Repr, DecidableEq

/-- Round (currentGame) status values touched during payout processing. -/
inductive RoundStatus
  | spinning
  | winnerSelected
  | processingPayout
  | completed
  | failed
deriving Repr, DecidableEq

/-- The Round fields `GameEngine.processWinnerPayout` mutates. -/
structure Round where
  status : RoundStatus
  winnerPayout : Nat
  creatorPayout : Nat
  transactionSignature : Option String
  error : Option String
deriving Repr, DecidableEq

/-- The payout pipeline call as observed by the engine: the awaited call
either returns a settlement reference or throws with a message. -/
inductive PayoutOutcome
  | success (signature : String)
  | failure (message : String)
deriving Repr, DecidableEq

/-- `GameEngine.processWinnerPayout`: compute the split from the pot
snapshot, invoke the pipeline; on success mark the round `completed`
(storing the signature), apply pot growth, and return to `waiting` with a
recalculated next spin time; on any thrown error mark the round `failed`
(storing the message) and likewise return to `waiting` with a recalculated
next spin time. -/
def processWinnerPayout (st : EngineState) (round : Round) (cfg : PotConfig)
    (winnerPct creatorPct : ℚ) (outcome : PayoutOutcome)
    (walletBalance : Option Nat) (now spinInterval : Nat) :
    EngineState × Round :=
  let winnerPayout := winnerPayoutOf st.currentPot winnerPct
  let creatorPayout := creatorPayoutOf st.currentPot creatorPct
  match outcome with
  | PayoutOutcome.success sig =>
    (⟨GameState.waiting,
      applyPotGrowth cfg st.currentPot walletBalance,
      calculateNextSpinTime now spinInterval⟩,
     { round with
       status := RoundStatus.completed,
       winnerPayout := winnerPayout,
       creatorPayout := creatorPayout,
       transactionSignature := some sig })
  | PayoutOutcome.failure msg =>
    (⟨GameState.waiting, st.currentPot,
      calculateNextSpinTime now spinInterval⟩,
     { round with
       status := RoundStatus.failed,
       winnerPayout := winnerPayout,
       creatorPayout := creatorPayout,
       error := some msg })

/-- Claim C7. After every completed spin cycle — payout success, payout
failure, or any error thrown during payout processing — the engine's state
returns to `waiting` and the next spin time is recalculated, so a failed
round never prevents the next scheduled tick; the round ends `completed`
on success and `failed` with the stored message on error. -/
theorem engine_returns_to_waiting (st : EngineState) (round : Round)
    (cfg : PotConfig) (w c : ℚ) (outcome : PayoutOutcome)
    (wb : Option Nat) (now spinInterval : Nat) :
    (processWinnerPayout st round cfg w c outcome wb now spinInterval).1.gameState
      = GameState.waiting ∧
    (processWinnerPayout st round cfg w c outcome wb now spinInterval).1.nextSpinTime
      = calculateNextSpinTime now spinInterval ∧
    (∀ sig, outcome = PayoutOutcome.success sig →
      (processWinnerPayout st round cfg w c outcome wb now spinInterval).2.status
        = RoundStatus.completed) ∧
    (∀ msg, outcome = PayoutOutcome.failure msg →
      (processWinnerPayout st round cfg w c outcome wb now spinInterval).2.status
        = RoundStatus.failed ∧
      (processWinnerPayout st round cfg w c outcome wb now spinInterval).2.error
        = some msg) := by
  cases outcome with
  | success sig =>
    refine ⟨rfl, rfl, ?_, ?_⟩
    · intro s hs
      rfl
    · intro m hm
      cases hm
  | failure msg =>
    refine ⟨rfl, rfl, ?_, ?_⟩
    · intro s hs
      cases hs
    · intro m hm
      cases hm
      exact ⟨rfl, rfl⟩

/-- Witness for C7: a concrete failed round (pipeline threw) still leaves
the engine `waiting` with the next spin time recalculated. -/
theorem engine_returns_to_waiting_witness :
    (processWinnerPayout ⟨GameState.processing, 10000000, 0⟩
        ⟨RoundStatus.processingPayout, 0, 0, none, none⟩
        ⟨(5 : ℚ) / 100, 10000000, 1000000000⟩ 50 50
        (PayoutOutcome.failure "boom") none 120000 5).1.gameState
      = GameState.waiting ∧
    (processWinnerPayout ⟨GameState.processing, 10000000, 0⟩
        ⟨RoundStatus.processingPayout, 0, 0, none, none⟩
        ⟨(5 : ℚ) / 100, 10000000, 1000000000⟩ 50 50
        (PayoutOutcome.failure "boom") none 120000 5).2.status
      = RoundStatus.failed := by
  have h := engine_returns_to_waiting ⟨GameState.processing, 10000000, 0⟩
    ⟨RoundStatus.processingPayout, 0, 0, none, none⟩
    ⟨(5 : ℚ) / 100, 10000000, 1000000000⟩ 50 50
    (PayoutOutcome.failure "boom") none 120000 5
  exact ⟨h.1, (h.2.2.2 "boom" rfl).1⟩

end WheelGame.GameEngine

namespace WheelGame.SolanaService

/-- RPC endpoint state of the gateway: the index advanced by
`switchToBackupRpc` and the number of configured backup connections. -/
structure RpcState where
  currentRpcIndex : Nat
  backupCount : Nat
deriving Repr, DecidableEq

/-- `SolanaService.switchToBackupRpc` (pointer advance): throws when no
backups exist, else advances round-robin over the backup list:
`currentRpcIndex = (currentRpcIndex + 1) % backupConnections.length`. -/
def switchToBackupRpc (st : RpcState) : Except String RpcState :=
  if st.backupCount = 0 then
    Except.error "No backup RPC connections available"
  else
    Except.ok { st with currentRpcIndex := (st.currentRpcIndex + 1) % st.backupCount }

/-- Trace of one `executeWithRetry` run: its result, how many times the
operation was invoked, the backoff delays waited (ms, in order) and the
final RPC state. -/
structure GatewayTrace (α : Type) where
  result : Except String α
  invocations : Nat
  delays : List Nat
  rpc : RpcState
deriving Repr

/-- The `for (let attempt = 1; attempt <= maxRetries; attempt++)` loop of
`SolanaService.executeWithRetry`, from attempt `attempt` with `remaining`
attempts allowed (`remaining = 0` is the zero-iteration fallthrough,
unreachable for `maxRetries ≥ 1`): on failure with attempts left it
advances to the next backup endpoint (when any exist) and waits
`Math.pow(2, attempt) * 1000` ms; exhaustion rethrows the last error. -/
def executeWithRetryGo {α : Type} (op : Nat → Except String α) :
    RpcState → Nat → Nat → GatewayTrace α
  | st, attempt, 0 =>
    { result := Except.error "no attempts", invocations := attempt - 1,
      delays := [], rpc := st }
  | st, attempt, remaining + 1 =>
    match op attempt with
    | Except.ok v =>
      { result := Except.ok v, invocations := attempt, delays := [], rpc := st }
    | Except.error e =>
      if remaining = 0 then
        { result := Except.error e, invocations := attempt, delays := [], rpc := st }
      else
        let st2 := if 0 < st.backupCount then
            { st with currentRpcIndex := (st.currentRpcIndex + 1) % st.backupCount }
          else st
        let t := executeWithRetryGo op st2 (attempt + 1) remaining
        { result := t.result, invocations := t.invocations,
          delays := 2 ^ attempt * 1000 :: t.delays, rpc := t.rpc }

/-- `SolanaService.executeWithRetry(operation, maxRetries = 3)`. -/
def executeWithRetry {α : Type} (op : Nat → Except String α) (st : RpcState)
    (maxRetries : Nat) : GatewayTrace α :=
  executeWithRetryGo op st 1 maxRetries

theorem executeWithRetryGo_invocations_bounds {α : Type}
    (op : Nat → Except String α) :
    ∀ remaining attempt st, 1 ≤ remaining →
      attempt ≤ (executeWithRetryGo op st attempt remaining).invocations ∧
      (executeWithRetryGo op st attempt remaining).invocations ≤ attempt + remaining - 1 := by
  intro remaining
  induction remaining with
  | zero => intro attempt st h; omega
  | succ r ih =>
    intro attempt st _
    unfold executeWithRetryGo
    cases hop : op attempt with
    | ok v => simp
    | error e =>
      by_cases hr : r = 0
      · subst hr; simp
      · simp only [hop, if_neg hr]
        have h := ih (attempt + 1)
          (if 0 < st.backupCount then
            { st with currentRpcIndex := (st.currentRpcIndex + 1) % st.backupCount }
           else st) (by omega)
        omega

set_option maxRecDepth 4000 in
theorem executeWithRetryGo_delays {α : Type} (op : Nat → Except String α) :
    ∀ remaining attempt st, 1 ≤ attempt →
      (executeWithRetryGo op st attempt remaining).delays =
        (List.range ((executeWithRetryGo op st attempt remaining).invocations - attempt)).map
          (fun n => 2 ^ (attempt + n) * 1000) := by
  intro remaining
  induction remaining with
  | zero => intro attempt st _; simp [executeWithRetryGo]
  | succ r ih =>
    intro attempt st ha
    unfold executeWithRetryGo
    cases hop : op attempt with
    | ok v => simp
    | error e =>
      by_cases hr : r = 0
      · subst hr; simp
      · simp only [hop, if_neg hr]
        have hb := executeWithRetryGo_invocations_bounds op r (attempt + 1)
          (if 0 < st.backupCount then
            { st with currentRpcIndex := (st.currentRpcIndex + 1) % st.backupCount }
           else st) (by omega)
        have hih := ih (attempt + 1)
          (if 0 < st.backupCount then
            { st with currentRpcIndex := (st.currentRpcIndex + 1) % st.backupCount }
           else st) (by omega)
        rw [hih]
        have hk : (executeWithRetryGo op
            (if 0 < st.backupCount then
              { st with currentRpcIndex := (st.currentRpcIndex + 1) % st.backupCount }
             else st) (attempt + 1) r).invocations - attempt
            = ((executeWithRetryGo op
                (if 0 < st.backupCount then
                  { st with currentRpcIndex := (st.currentRpcIndex + 1) % st.backupCount }
                 else st) (attempt + 1) r).invocations - (attempt + 1)) + 1 := by
          omega
        rw [hk, List.range_succ_eq_map, List.map_cons, List.map_map]
        have h0 : 2 ^ (attempt + 0) * 1000 = 2 ^ attempt * 1000 := by norm_num
        simp only [h0]
        congr 1
        apply List.map_congr_left
        intro n _
        simp only [Function.comp]
        have : attempt + Nat.succ n = attempt + 1 + n := by omega
        rw [this]

theorem executeWithRetryGo_error {α : Type} (op : Nat → Except String α) :
    ∀ remaining attempt st e, 1 ≤ remaining →
      (executeWithRetryGo op st attempt remaining).result = Except.error e →
      (executeWithRetryGo op st attempt remaining).invocations = attempt + remaining - 1 ∧
      op (attempt + remaining - 1) = Except.error e := by
  intro remaining
  induction remaining with
  | zero => intro attempt st e h; omega
  | succ r ih =>
    intro attempt st e _
    unfold executeWithRetryGo
    cases hop : op attempt with
    | ok v => intro h; exact absurd h (by simp)
    | error e0 =>
      by_cases hr : r = 0
      · subst hr
        simp only [hop, if_pos rfl]
        intro h
        have he : e0 = e := Except.error.inj h
        subst he
        exact ⟨by simp, by simpa using hop⟩
      · simp only [hop, if_neg hr]
        intro h
        have := ih (attempt + 1)
          (if 0 < st.backupCount then
            { st with currentRpcIndex := (st.currentRpcIndex + 1) % st.backupCount }
           else st) e (by omega) h
        refine ⟨by omega, ?_⟩
        have harith : attempt + 1 + r - 1 = attempt + (r + 1) - 1 := by omega
        rw [harith] at this
        exact this.2

theorem executeWithRetryGo_first_success {α : Type} (op : Nat → Except String α) :
    ∀ remaining attempt st v,
      (executeWithRetryGo op st attempt remaining).result = Except.ok v →
      op (executeWithRetryGo op st attempt remaining).invocations = Except.ok v ∧
      ∀ j, attempt ≤ j → j < (executeWithRetryGo op st attempt remaining).invocations →
        ∃ e, op j = Except.error e := by
  intro remaining
  induction remaining with
  | zero => intro attempt st v h; exact absurd h (by simp [executeWithRetryGo])
  | succ r ih =>
    intro attempt st v
    unfold executeWithRetryGo
    cases hop : op attempt with
    | ok v0 =>
      intro h
      have hv : v0 = v := Except.ok.inj h
      subst hv
      refine ⟨by simpa using hop, ?_⟩
      intro j hj1 hj2
      simp at hj2
      omega
    | error e0 =>
      by_cases hr : r = 0
      · subst hr
        simp only [hop, if_pos rfl]
        intro h
        exact absurd h (by simp)
      · simp only [hop, if_neg hr]
        intro h
        have hrec := ih (attempt + 1)
          (if 0 < st.backupCount then
            { st with currentRpcIndex := (st.currentRpcIndex + 1) % st.backupCount }
           else st) v h
        refine ⟨hrec.1, ?_⟩
        intro j hj1 hj2
        by_cases hje : j = attempt
        · subst hje
          exact ⟨e0, hop⟩
        · exact hrec.2 j (by omega) hj2

theorem executeWithRetryGo_rpc {α : Type} (op : Nat → Except String α) :
    ∀ remaining attempt st, 0 < st.backupCount →
      st.currentRpcIndex < st.backupCount →
      (executeWithRetryGo op st attempt remaining).rpc.backupCount = st.backupCount ∧
      (executeWithRetryGo op st attempt remaining).rpc.currentRpcIndex =
        (st.currentRpcIndex + ((executeWithRetryGo op st attempt remaining).invocations - attempt))
          % st.backupCount := by
  intro remaining
  induction remaining with
  | zero =>
    intro attempt st hb hidx
    refine ⟨rfl, ?_⟩
    show st.currentRpcIndex
      = (st.currentRpcIndex + (attempt - 1 - attempt)) % st.backupCount
    have h0 : attempt - 1 - attempt = 0 := by omega
    rw [h0, Nat.add_zero, Nat.mod_eq_of_lt hidx]
  | succ r ih =>
    intro attempt st hb hidx
    unfold executeWithRetryGo
    cases hop : op attempt with
    | ok v =>
      refine ⟨rfl, ?_⟩
      show st.currentRpcIndex
        = (st.currentRpcIndex + (attempt - attempt)) % st.backupCount
      rw [Nat.sub_self, Nat.add_zero, Nat.mod_eq_of_lt hidx]
    | error e =>
      by_cases hr : r = 0
      · subst hr
        refine ⟨rfl, ?_⟩
        show st.currentRpcIndex
          = (st.currentRpcIndex + (attempt - attempt)) % st.backupCount
        rw [Nat.sub_self, Nat.add_zero, Nat.mod_eq_of_lt hidx]
      · simp only [hop, if_neg hr, if_pos hb]
        have hih := ih (attempt + 1)
          { st with currentRpcIndex := (st.currentRpcIndex + 1) % st.backupCount }
          (by simpa using hb) (by simpa using Nat.mod_lt _ hb)
        have hb2 := executeWithRetryGo_invocations_bounds op r (attempt + 1)
          { st with currentRpcIndex := (st.currentRpcIndex + 1) % st.backupCount }
          (by omega)
        refine ⟨by simpa using hih.1, ?_⟩
        have h2 := hih.2
        simp only at h2 ⊢
        rw [h2]
        have hk : (executeWithRetryGo op
            { currentRpcIndex := (st.currentRpcIndex + 1) % st.backupCount,
              backupCount := st.backupCount } (attempt + 1) r).invocations - attempt
            = ((executeWithRetryGo op
                { currentRpcIndex := (st.currentRpcIndex + 1) % st.backupCount,
                  backupCount := st.backupCount } (attempt + 1) r).invocations
               - (attempt + 1)) + 1 := by
          omega
        rw [hk, Nat.mod_add_mod]
        congr 1
        omega

end WheelGame.SolanaService

namespace WheelGame.SolanaService

/-- Claim C9. `executeWithRetry(op, maxRetries)` invokes `op` at most
`maxRetries` times; returns the result of the first successful invocation
(all earlier invocations having failed); between failed attempts it
advances the active endpoint round-robin over the backup list (when
backups are configured) and waits an exponential backoff
(`2^attempt · 1000` ms); and when all `maxRetries` attempts fail it raises
the error of the last attempt. -/
theorem executeWithRetry_spec {α : Type} (op : Nat → Except String α)
    (st : RpcState) (maxRetries : Nat) (hmr : 1 ≤ maxRetries)
    (hb : 0 < st.backupCount) (hidx : st.currentRpcIndex < st.backupCount) :
    (executeWithRetry op st maxRetries).invocations ≤ maxRetries ∧
    (∀ v, (executeWithRetry op st maxRetries).result = Except.ok v →
      op (executeWithRetry op st maxRetries).invocations = Except.ok v ∧
      ∀ j, 1 ≤ j → j < (executeWithRetry op st maxRetries).invocations →
        ∃ e, op j = Except.error e) ∧
    (executeWithRetry op st maxRetries).delays =
      (List.range ((executeWithRetry op st maxRetries).invocations - 1)).map
        (fun n => 2 ^ (1 + n) * 1000) ∧
    (executeWithRetry op st maxRetries).rpc.backupCount = st.backupCount ∧
    (executeWithRetry op st maxRetries).rpc.currentRpcIndex =
      (st.currentRpcIndex + ((executeWithRetry op st maxRetries).invocations - 1))
        % st.backupCount ∧
    (∀ e, (executeWithRetry op st maxRetries).result = Except.error e →
      (executeWithRetry op st maxRetries).invocations = maxRetries ∧
      op maxRetries = Except.error e) := by
  refine ⟨?_, ?_, ?_, ?_, ?_, ?_⟩
  · have := executeWithRetryGo_invocations_bounds op maxRetries 1 st hmr
    simp only [executeWithRetry]
    omega
  · intro v hv
    exact executeWithRetryGo_first_success op maxRetries 1 st v hv
  · exact executeWithRetryGo_delays op maxRetries 1 st (le_refl 1)
  · exact (executeWithRetryGo_rpc op maxRetries 1 st hb hidx).1
  · exact (executeWithRetryGo_rpc op maxRetries 1 st hb hidx).2
  · intro e he
    have h := executeWithRetryGo_error op maxRetries 1 st e hmr he
    have harith : 1 + maxRetries - 1 = maxRetries := by omega
    rw [harith] at h
    exact h

/-- Witness for C9: two failures then a success with two backups — the
theorem bounds the invocations by 3, and concretely the run waits 2000 then
4000 ms and advances the endpoint round-robin back to index 0. -/
theorem executeWithRetry_spec_witness :
    (executeWithRetry (fun n => if n < 3 then Except.error "down" else Except.ok "v")
        ⟨0, 2⟩ 3).invocations ≤ 3 ∧
    (executeWithRetry (fun n => if n < 3 then Except.error "down" else Except.ok "v")
        ⟨0, 2⟩ 3).delays = [2000, 4000] ∧
    (executeWithRetry (fun n => if n < 3 then Except.error "down" else Except.ok "v")
        ⟨0, 2⟩ 3).rpc.currentRpcIndex = 0 :=
  ⟨(executeWithRetry_spec (fun n => if n < 3 then Except.error "down" else Except.ok "v")
      ⟨0, 2⟩ 3 (by norm_num) (by norm_num) (by norm_num)).1,
   by rfl, by rfl⟩

end WheelGame.SolanaService
